import Mathlib

/-!
# RSA key loading (`zhubin/common/utils/rsa/key.go`)

A shallow embedding of the Go package `rsa` of the repository: the `key`
value with its three methods, the four decoding functions and the PEM file
loader.

Conventions of the embedding

* A Go function either returns or aborts with a run-time panic: `Outcome`.
* A Go `(Key, error)` result is the pair `Option key × Option Error`
  (`none` is Go's `nil`).
* The standard library is outside the repository.  `x509`, `pem` and
  `ioutil` are taken as parameters (`X509`, `Env`); `strings.TrimSpace`,
  `errors.New` and `(*big.Int).Bytes` are written out from their documented
  behaviour.
* Every call the loader makes to the outside (file read, PEM decode, strategy)
  is recorded, in order, in the `calls` field of a `Run`.
-/

namespace ZhubinRsa

/-! ## Go run-time values -/

/-- A byte slice, `[]byte`: every element is meant to be below 256. -/
abbrev Bytes := List Nat

/-- Go run-time panics that the package can raise. -/
inductive Panic where
  /-- Dereference of a nil pointer ("invalid memory address or nil pointer dereference"). -/
  | nilDereference
  /-- Failed single-value type assertion `x.(T)`: the dynamic type found and the type wanted. -/
  | interfaceConversion (dynamicType wanted : String)
  deriving DecidableEq, Repr

/-- Result of running a Go function: a normal return or a panic. -/
inductive Outcome (α : Type) where
  | ret (a : α)
  | panic (p : Panic)
  deriving DecidableEq, Repr

/-- Sequencing of Go statements: a panic aborts what follows. -/
def Outcome.bind {α β : Type} : Outcome α → (α → Outcome β) → Outcome β
  | .ret a, f => f a
  | .panic p, _ => .panic p

/-- Go `error` values: the ones made by `errors.New` and the ones made by the
standard library (`os`, `x509`, `asn1`), kept apart by the package of origin. -/
inductive Error where
  | errorString (s : String)
  | library (pkg : String) (s : String)
  deriving DecidableEq, Repr

/-- Go `errors.New`. -/
def errorsNew (text : String) : Error := .errorString text

/-- Method `Error()` of a Go error: its message. -/
def Error.message : Error → String
  | .errorString s => s
  | .library _ s => s

/-! ## `crypto/rsa` key types and `math/big` -/

/-- Go `rsa.PublicKey`: modulus `N` and public exponent `E`.  `N` is Go's
`*big.Int`: a pointer, nil (`none`) or to an integer. -/
structure PublicKey where
  N : Option Int
  E : Int
  deriving DecidableEq, Repr

/-- Go `rsa.PrivateKey`: embeds the public key, adds the private exponent and
the prime factors. -/
structure PrivateKey extends PublicKey where
  D : Int
  Primes : List Int
  deriving DecidableEq, Repr

/-- Big-endian base-256 digits of a natural number, no leading zero; `fuel`
bounds the number of digits produced. -/
def natBytes : Nat → Nat → Bytes
  | 0, _ => []
  | fuel + 1, n => if n = 0 then [] else natBytes fuel (n / 256) ++ [n % 256]

/-- Go `(*big.Int).Bytes`: the absolute value as a big-endian byte slice
(empty for zero); the number itself is always enough fuel.  On a nil
receiver the method dereferences it and panics. -/
def bigBytes : Option Int → Outcome Bytes
  | none => .panic .nilDereference
  | some x => .ret (natBytes x.natAbs x.natAbs)

/-- Value of a big-endian byte string, as DER stores the content of an
INTEGER (leading zero bytes allowed). -/
def beValue (bs : Bytes) : Nat := bs.foldl (fun acc b => acc * 256 + b) 0

/-! ## The `key` value (key.go, lines 90-110) -/

/-- Go `type key struct`: two pointers, each possibly nil. -/
structure key where
  publicKey : Option PublicKey
  privateKey : Option PrivateKey
  deriving DecidableEq, Repr

/-- Go `func (key *key) Modulus() int`. -/
def key.Modulus (k : key) : Outcome Nat :=
  match k.privateKey with
  | some prk => (bigBytes prk.N).bind fun bs => .ret bs.length
  | none =>
    match k.publicKey with
    | some puk => (bigBytes puk.N).bind fun bs => .ret bs.length
    | none => .panic .nilDereference

/-- Go `func (key *key) PublicKey() *rsa.PublicKey`. -/
def key.PublicKey (k : key) : Option PublicKey := k.publicKey

/-- Go `func (key *key) PrivateKey() *rsa.PrivateKey`. -/
def key.PrivateKey (k : key) : Option PrivateKey := k.privateKey

/-! ## `crypto/x509`, taken as a parameter -/

/-- What `x509.ParsePKIXPublicKey` returns in its `interface` result: an RSA
public key, or a key of another algorithm, named by its Go type. -/
inductive AnyPublicKey where
  | rsa (k : PublicKey)
  | other (goType : String)
  deriving DecidableEq, Repr

/-- What `x509.ParsePKCS8PrivateKey` returns in its `interface` result. -/
inductive AnyPrivateKey where
  | rsa (k : PrivateKey)
  | other (goType : String)
  deriving DecidableEq, Repr

/-- The three `crypto/x509` parsers the package calls. -/
structure X509 where
  ParsePKIXPublicKey : Bytes → Except Error AnyPublicKey
  ParsePKCS8PrivateKey : Bytes → Except Error AnyPrivateKey
  ParsePKCS1PrivateKey : Bytes → Except Error PrivateKey

/-- Go `puk.(*rsa.PublicKey)`, the single-value assertion: panics on any
other dynamic type. -/
def assertRSAPublic : AnyPublicKey → Outcome PublicKey
  | .rsa k => .ret k
  | .other t => .panic (.interfaceConversion t "*rsa.PublicKey")

/-- Go `prk.(*rsa.PrivateKey)`. -/
def assertRSAPrivate : AnyPrivateKey → Outcome PrivateKey
  | .rsa k => .ret k
  | .other t => .panic (.interfaceConversion t "*rsa.PrivateKey")

/-- A Go `(Key, error)` result. -/
abbrev KeyResult := Option key × Option Error

/-! ## The decoding functions (key.go, lines 19-59) -/

/-- Go `func ParsePKCS8PubKey(publicKey []byte) (Key, error)`. -/
def ParsePKCS8PubKey (x : X509) (publicKey : Bytes) : Outcome KeyResult :=
  match x.ParsePKIXPublicKey publicKey with
  | .error err => .ret (none, some err)
  | .ok puk =>
    (assertRSAPublic puk).bind fun p =>
    .ret (some { publicKey := some p, privateKey := none }, none)

/-- Go `func ParsePKCS8PriKey(privateKey []byte) (Key, error)`. -/
def ParsePKCS8PriKey (x : X509) (privateKey : Bytes) : Outcome KeyResult :=
  match x.ParsePKCS8PrivateKey privateKey with
  | .error err => .ret (none, some err)
  | .ok prk =>
    (assertRSAPrivate prk).bind fun r =>
    .ret (some { publicKey := none, privateKey := some r }, none)

/-- Go `func ParsePKCS8Key(publicKey, privateKey []byte) (Key, error)`.  The
two assertions sit in the composite literal of the last statement: they run
after both parsers have returned, the public one first. -/
def ParsePKCS8Key (x : X509) (publicKey privateKey : Bytes) : Outcome KeyResult :=
  match x.ParsePKIXPublicKey publicKey with
  | .error err => .ret (none, some err)
  | .ok puk =>
    match x.ParsePKCS8PrivateKey privateKey with
    | .error err => .ret (none, some err)
    | .ok prk =>
      (assertRSAPublic puk).bind fun p =>
      (assertRSAPrivate prk).bind fun r =>
      .ret (some { publicKey := some p, privateKey := some r }, none)

/-- Go `func ParsePKCS1Key(publicKey, privateKey []byte) (Key, error)`. -/
def ParsePKCS1Key (x : X509) (publicKey privateKey : Bytes) : Outcome KeyResult :=
  match x.ParsePKIXPublicKey publicKey with
  | .error err => .ret (none, some err)
  | .ok puk =>
    match x.ParsePKCS1PrivateKey privateKey with
    | .error err => .ret (none, some err)
    | .ok prk =>
      (assertRSAPublic puk).bind fun p =>
      .ret (some { publicKey := some p, privateKey := some prk }, none)

/-! ## `strings.TrimSpace` -/

/-- Go `unicode.IsSpace`, by code point. -/
def isSpace (c : Char) : Bool :=
  let n := c.toNat
  (9 ≤ n && n ≤ 13) || n == 0x20 || n == 0x85 || n == 0xA0 || n == 0x1680 ||
  (0x2000 ≤ n && n ≤ 0x200A) || n == 0x2028 || n == 0x2029 || n == 0x202F ||
  n == 0x205F || n == 0x3000

/-- Trimming of a rune sequence: the left end first, then the right end. -/
def trimRunes (cs : List Char) : List Char :=
  (cs.dropWhile isSpace).rdropWhile isSpace

/-- Go `strings.TrimSpace`, on strings of valid UTF-8. -/
def TrimSpace (s : String) : String := String.mk (trimRunes s.data)

/-! ## The file loader (key.go, lines 61-88) -/

/-- Go `pem.Block`; its field `Type` is a Lean keyword, hence `Type_`. -/
structure Block where
  Type_ : String
  Headers : List (String × String)
  Bytes : Bytes
  deriving DecidableEq, Repr

/-- The outside world of the loader: `ioutil.ReadFile` on the current
file system, and `pem.Decode` (first block found, or nil, and the rest of
the input). -/
structure Env where
  ReadFile : String → Except Error Bytes
  Decode : Bytes → Option Block × Bytes

/-- A call the loader makes to the outside. -/
inductive Call where
  | readFile (path : String)
  | pemDecode (data : Bytes)
  | parseKey (publicKey privateKey : Bytes)
  deriving DecidableEq, Repr

/-- A run of the loader: the calls made, in order, and the result. -/
structure Run where
  calls : List Call
  result : Outcome KeyResult
  deriving DecidableEq, Repr

/-- Go `func LoadKeyFromPEMFile(publicKeyFilePath, privateKeyFilePath string,
ParseKey func([]byte, []byte) (Key, error)) (Key, error)`. -/
def LoadKeyFromPEMFile (env : Env) (publicKeyFilePath privateKeyFilePath : String)
    (ParseKey : Bytes → Bytes → Outcome KeyResult) : Run :=
  let publicKeyFilePath := TrimSpace publicKeyFilePath
  match env.ReadFile publicKeyFilePath with
  | .error err => ⟨[.readFile publicKeyFilePath], .ret (none, some err)⟩
  | .ok pukBytes =>
    match (env.Decode pukBytes).1 with
    | none =>
      ⟨[.readFile publicKeyFilePath, .pemDecode pukBytes],
        .ret (none, some (errorsNew "publicKey is not pem format"))⟩
    | some puk =>
      let privateKeyFilePath := TrimSpace privateKeyFilePath
      match env.ReadFile privateKeyFilePath with
      | .error err =>
        ⟨[.readFile publicKeyFilePath, .pemDecode pukBytes, .readFile privateKeyFilePath],
          .ret (none, some err)⟩
      | .ok prkBytes =>
        match (env.Decode prkBytes).1 with
        | none =>
          ⟨[.readFile publicKeyFilePath, .pemDecode pukBytes, .readFile privateKeyFilePath,
              .pemDecode prkBytes],
            .ret (none, some (errorsNew "privateKey is not pem format"))⟩
        | some prk =>
          ⟨[.readFile publicKeyFilePath, .pemDecode pukBytes, .readFile privateKeyFilePath,
              .pemDecode prkBytes, .parseKey puk.Bytes prk.Bytes],
            ParseKey puk.Bytes prk.Bytes⟩

/-! ## A small concrete world, to run the definitions on -/

/-- A toy `crypto/x509`: the payload `[1, n]` is an RSA public key of modulus
`n`, `[2]` an elliptic-curve public key; `[3, n]` is a PKCS#8 RSA private key,
`[4]` a PKCS#8 elliptic-curve private key; `[5, n]` is a PKCS#1 RSA private
key; everything else is rejected. -/
def sampleX509 : X509 where
  ParsePKIXPublicKey := fun der =>
    match der with
    | [1, n] => .ok (.rsa { N := some (Int.ofNat n), E := 65537 })
    | [2] => .ok (.other "*ecdsa.PublicKey")
    | _ => .error (.library "asn1" "structure error: public")
  ParsePKCS8PrivateKey := fun der =>
    match der with
    | [3, n] => .ok (.rsa { N := some (Int.ofNat n), E := 65537, D := 1, Primes := [] })
    | [4] => .ok (.other "*ecdsa.PrivateKey")
    | _ => .error (.library "asn1" "structure error: private")
  ParsePKCS1PrivateKey := fun der =>
    match der with
    | [5, n] => .ok { N := some (Int.ofNat n), E := 65537, D := 1, Primes := [] }
    | _ => .error (.library "asn1" "structure error: pkcs1")

/-- A toy `pem.Decode`: a block is the marker byte 45, a length byte and that
many payload bytes; input that does not start so holds no block. -/
def sampleDecode : Bytes → Option Block × Bytes
  | 45 :: n :: rest => (some { Type_ := "KEY", Headers := [], Bytes := rest.take n }, rest.drop n)
  | data => (none, data)

/-- A toy file system: `pub.pem` holds two blocks (payloads `[1, 77]` and
`[9]`), `pri.pem` one block (payload `[3, 77]`), `plain.txt` no block, and
no other file exists. -/
def sampleEnv : Env where
  ReadFile := fun path =>
    if path = "pub.pem" then .ok [45, 2, 1, 77, 45, 1, 9]
    else if path = "pri.pem" then .ok [45, 2, 3, 77]
    else if path = "plain.txt" then .ok [104, 105]
    else .error (.library "os" "no such file or directory")
  Decode := sampleDecode

/-- A key with no half at all. -/
def emptyKey : key := { publicKey := none, privateKey := none }

/-- A public-only key of modulus 65537 (three bytes). -/
def samplePublicOnly : key :=
  { publicKey := some { N := some 65537, E := 3 }, privateKey := none }

/-- A key whose two halves disagree: public modulus 65537 (three bytes),
private modulus 255 (one byte). -/
def sampleMismatched : key :=
  { publicKey := some { N := some 65537, E := 3 },
    privateKey := some { N := some 255, E := 3, D := 1, Primes := [] } }

/-- A key with a public half whose modulus pointer is nil, and no private
half: Go's `&key{publicKey: &rsa.PublicKey{}}`. -/
def sampleNilModulus : key := { publicKey := some { N := none, E := 0 }, privateKey := none }

/-! ## Lemmas on `natBytes` -/

theorem natBytes_zero (fuel : Nat) : natBytes fuel 0 = [] := by
  cases fuel <;> simp [natBytes]

theorem natBytes_succ (fuel n : Nat) (hn : n ≠ 0) :
    natBytes (fuel + 1) n = natBytes fuel (n / 256) ++ [n % 256] := by
  simp [natBytes, hn]

/-- More fuel than the number itself changes nothing. -/
theorem natBytes_fuel : ∀ (f g n : Nat), n ≤ f → n ≤ g → natBytes f n = natBytes g n := by
  intro f
  induction f with
  | zero =>
    intro g n hf _
    have : n = 0 := by omega
    subst this
    rw [natBytes_zero, natBytes_zero]
  | succ f ih =>
    intro g n hf hg
    by_cases hn : n = 0
    · subst hn
      rw [natBytes_zero, natBytes_zero]
    · obtain ⟨g, rfl⟩ : ∃ h, g = h + 1 := ⟨g - 1, by omega⟩
      rw [natBytes_succ f n hn, natBytes_succ g n hn]
      have hdiv : n / 256 < n := Nat.div_lt_self (Nat.pos_of_ne_zero hn) (by norm_num)
      rw [ih g (n / 256) (by omega) (by omega)]

/-- The digits produced are those of `Nat.digits 256`, most significant first. -/
theorem natBytes_eq_digits : ∀ (f n : Nat), n ≤ f → natBytes f n = (Nat.digits 256 n).reverse := by
  intro f
  induction f with
  | zero =>
    intro n hf
    have : n = 0 := by omega
    subst this
    simp [natBytes]
  | succ f ih =>
    intro n hf
    by_cases hn : n = 0
    · subst hn
      simp [natBytes]
    · have hdiv : n / 256 < n := Nat.div_lt_self (Nat.pos_of_ne_zero hn) (by norm_num)
      rw [natBytes_succ f n hn, ih (n / 256) (by omega)]
      rw [Nat.digits_def' (by norm_num : 1 < 256) (Nat.pos_of_ne_zero hn)]
      simp

/-- Length of the byte string of a positive number: one more than its
logarithm in base 256. -/
theorem natBytes_length (n : Nat) (hn : n ≠ 0) : (natBytes n n).length = Nat.log 256 n + 1 := by
  rw [natBytes_eq_digits n n le_rfl, List.length_reverse, Nat.digits_len 256 n (by norm_num) hn]

/-- The byte string of the value of a big-endian byte string is that string
without its leading zero bytes. -/
theorem natBytes_beValue (bs : Bytes) (hbs : ∀ b ∈ bs, b < 256) :
    natBytes (beValue bs) (beValue bs) = bs.dropWhile (fun b => b == 0) := by
  induction bs using List.reverseRecOn with
  | nil => simp [beValue, natBytes]
  | append_singleton bs b ih =>
    have hb : b < 256 := hbs b (by simp)
    have hbs' : ∀ c ∈ bs, c < 256 := fun c hc => hbs c (by simp [hc])
    have hval : beValue (bs ++ [b]) = beValue bs * 256 + b := by
      simp [beValue, List.foldl_append]
    rw [hval]
    by_cases hz : beValue bs * 256 + b = 0
    · have h1 : beValue bs = 0 := by omega
      have h2 : b = 0 := by omega
      have ih' := ih hbs'
      rw [h1, natBytes_zero] at ih'
      rw [hz, natBytes_zero, List.dropWhile_append, ← ih']
      simp [h2]
    · obtain ⟨m, hm⟩ : ∃ m, beValue bs * 256 + b = m + 1 := ⟨beValue bs * 256 + b - 1, by omega⟩
      have hdiv : (beValue bs * 256 + b) / 256 = beValue bs := by omega
      have hmod : (beValue bs * 256 + b) % 256 = b := by omega
      have hstep : natBytes (beValue bs * 256 + b) (beValue bs * 256 + b)
          = natBytes (beValue bs) (beValue bs) ++ [b] := by
        conv_lhs => rw [hm]
        rw [natBytes_succ m _ (by omega), ← hm, hdiv, hmod]
        rw [natBytes_fuel m (beValue bs) (beValue bs) (by omega) le_rfl]
      rw [hstep, ih hbs', List.dropWhile_append]
      by_cases hnil : List.dropWhile (fun b => b == 0) bs = []
      · have h0 : natBytes (beValue bs) (beValue bs) = [] := by rw [ih hbs', hnil]
        have hv : beValue bs = 0 := by
          by_contra hne
          have := natBytes_length (beValue bs) hne
          rw [h0] at this
          simp at this
        have hb0 : b ≠ 0 := by omega
        simp [hnil, hb0]
      · simp [hnil]

/-- Byte length of a positive number: the unique `k ≥ 1` with
`256^(k-1) ≤ n < 256^k`, which is `⌈bitlen n / 8⌉`. -/
theorem natBytes_length_spec (n : Nat) (hn : n ≠ 0) :
    1 ≤ (natBytes n n).length ∧ 256 ^ ((natBytes n n).length - 1) ≤ n ∧
    n < 256 ^ (natBytes n n).length ∧
    (∀ j, 1 ≤ j → 256 ^ (j - 1) ≤ n → n < 256 ^ j → j = (natBytes n n).length) ∧
    (natBytes n n).length = (Nat.size n + 7) / 8 := by
  rw [natBytes_length n hn]
  have hlo : 256 ^ Nat.log 256 n ≤ n := Nat.pow_log_le_self 256 hn
  have hhi : n < 256 ^ (Nat.log 256 n + 1) := Nat.lt_pow_succ_log_self (by norm_num) n
  refine ⟨by omega, by simpa using hlo, hhi, ?_, ?_⟩
  · intro j hj h1 h2
    obtain ⟨i, rfl⟩ : ∃ i, j = i + 1 := ⟨j - 1, by omega⟩
    have := Nat.log_eq_of_pow_le_of_lt_pow (by simpa using h1) h2
    omega
  · have e : (256 : Nat) = 2 ^ 8 := by norm_num
    rw [e, ← pow_mul] at hlo hhi
    have h3 : 8 * Nat.log 256 n < Nat.size n := Nat.lt_size.mpr hlo
    have h4 : Nat.size n ≤ 8 * (Nat.log 256 n + 1) := Nat.size_le.mpr hhi
    omega

/-! ## Lemmas on `TrimSpace` -/

theorem dropWhile_of_all {α : Type} (p : α → Bool) (ws l : List α) (hws : ∀ c ∈ ws, p c = true) :
    (ws ++ l).dropWhile p = l.dropWhile p := by
  induction ws with
  | nil => rfl
  | cons c ws ih =>
    have hc : p c = true := hws c (by simp)
    rw [List.cons_append, List.dropWhile_cons_of_pos hc]
    exact ih (fun d hd => hws d (by simp [hd]))

theorem rdropWhile_of_all {α : Type} (p : α → Bool) (l ws : List α) (hws : ∀ c ∈ ws, p c = true) :
    (l ++ ws).rdropWhile p = l.rdropWhile p := by
  unfold List.rdropWhile
  rw [List.reverse_append, dropWhile_of_all p ws.reverse l.reverse (by simpa using hws)]

/-- A list that does not start with a space keeps its first element when
trimmed on the right, so trimming it on the left again changes nothing. -/
theorem dropWhile_rdropWhile_dropWhile {α : Type} (p : α → Bool) (l : List α) :
    ((l.dropWhile p).rdropWhile p).dropWhile p = (l.dropWhile p).rdropWhile p := by
  cases hm : (l.dropWhile p).rdropWhile p with
  | nil => rfl
  | cons a m =>
    have hpre : (l.dropWhile p).rdropWhile p <+: l.dropWhile p := List.rdropWhile_prefix p _
    rw [hm] at hpre
    obtain ⟨t, ht⟩ := hpre
    have hne : l.dropWhile p ≠ [] := by
      rw [← ht]
      simp
    have hhead := List.head_dropWhile_not p l hne
    have ha : (l.dropWhile p).head hne = a := by
      simp [← ht]
    rw [ha] at hhead
    rw [List.dropWhile_cons_of_neg (by simp [hhead])]

theorem trimRunes_idempotent (cs : List Char) : trimRunes (trimRunes cs) = trimRunes cs := by
  unfold trimRunes
  rw [dropWhile_rdropWhile_dropWhile, List.rdropWhile_idempotent]

/-- Whitespace around a rune sequence does not survive trimming. -/
theorem trimRunes_surround (ws1 cs ws2 : List Char)
    (h1 : ∀ c ∈ ws1, isSpace c = true) (h2 : ∀ c ∈ ws2, isSpace c = true) :
    trimRunes (ws1 ++ cs ++ ws2) = trimRunes cs := by
  unfold trimRunes
  rw [List.append_assoc, dropWhile_of_all isSpace ws1 (cs ++ ws2) h1]
  by_cases hall : ∀ c ∈ cs, isSpace c = true
  · rw [dropWhile_of_all isSpace cs ws2 hall]
    have e1 : ws2.dropWhile isSpace = [] := by
      rw [List.dropWhile_eq_nil_iff]
      exact h2
    have e2 : cs.dropWhile isSpace = [] := by
      rw [List.dropWhile_eq_nil_iff]
      exact hall
    rw [e1, e2]
  · have hsplit : (cs ++ ws2).dropWhile isSpace = cs.dropWhile isSpace ++ ws2 := by
      rw [List.dropWhile_append]
      have : cs.dropWhile isSpace ≠ [] := by
        rw [Ne, List.dropWhile_eq_nil_iff]
        exact hall
      simp [this]
    rw [hsplit, rdropWhile_of_all isSpace _ ws2 h2]

theorem TrimSpace_idempotent (s : String) : TrimSpace (TrimSpace s) = TrimSpace s := by
  unfold TrimSpace
  rw [trimRunes_idempotent]

theorem TrimSpace_surround (ws1 s ws2 : String)
    (h1 : ∀ c ∈ ws1.data, isSpace c = true) (h2 : ∀ c ∈ ws2.data, isSpace c = true) :
    TrimSpace (ws1 ++ s ++ ws2) = TrimSpace s := by
  unfold TrimSpace
  have : (ws1 ++ s ++ ws2).data = ws1.data ++ s.data ++ ws2.data := by
    simp [String.data_append]
  rw [this, trimRunes_surround ws1.data s.data ws2.data h1 h2]

/-! ## Lemmas on the loader -/

/-- The five ways through the loader, first: the public file cannot be read. -/
theorem load_public_unreadable (env : Env) (pub pri : String)
    (f : Bytes → Bytes → Outcome KeyResult) (e : Error)
    (h1 : env.ReadFile (TrimSpace pub) = .error e) :
    LoadKeyFromPEMFile env pub pri f
      = ⟨[.readFile (TrimSpace pub)], .ret (none, some e)⟩ := by
  simp only [LoadKeyFromPEMFile, h1]

/-- Second way: the public file holds no PEM block. -/
theorem load_public_not_pem (env : Env) (pub pri : String)
    (f : Bytes → Bytes → Outcome KeyResult) (c1 : Bytes)
    (h1 : env.ReadFile (TrimSpace pub) = .ok c1) (h2 : (env.Decode c1).1 = none) :
    LoadKeyFromPEMFile env pub pri f
      = ⟨[.readFile (TrimSpace pub), .pemDecode c1],
          .ret (none, some (errorsNew "publicKey is not pem format"))⟩ := by
  simp only [LoadKeyFromPEMFile, h1, h2]

/-- Third way: the private file cannot be read. -/
theorem load_private_unreadable (env : Env) (pub pri : String)
    (f : Bytes → Bytes → Outcome KeyResult) (c1 : Bytes) (b1 : Block) (e : Error)
    (h1 : env.ReadFile (TrimSpace pub) = .ok c1) (h2 : (env.Decode c1).1 = some b1)
    (h3 : env.ReadFile (TrimSpace pri) = .error e) :
    LoadKeyFromPEMFile env pub pri f
      = ⟨[.readFile (TrimSpace pub), .pemDecode c1, .readFile (TrimSpace pri)],
          .ret (none, some e)⟩ := by
  simp only [LoadKeyFromPEMFile, h1, h2, h3]

/-- Fourth way: the private file holds no PEM block. -/
theorem load_private_not_pem (env : Env) (pub pri : String)
    (f : Bytes → Bytes → Outcome KeyResult) (c1 c2 : Bytes) (b1 : Block)
    (h1 : env.ReadFile (TrimSpace pub) = .ok c1) (h2 : (env.Decode c1).1 = some b1)
    (h3 : env.ReadFile (TrimSpace pri) = .ok c2) (h4 : (env.Decode c2).1 = none) :
    LoadKeyFromPEMFile env pub pri f
      = ⟨[.readFile (TrimSpace pub), .pemDecode c1, .readFile (TrimSpace pri), .pemDecode c2],
          .ret (none, some (errorsNew "privateKey is not pem format"))⟩ := by
  simp only [LoadKeyFromPEMFile, h1, h2, h3, h4]

/-- Fifth way: both files hold a block, the strategy decides. -/
theorem load_both_pem (env : Env) (pub pri : String)
    (f : Bytes → Bytes → Outcome KeyResult) (c1 c2 : Bytes) (b1 b2 : Block)
    (h1 : env.ReadFile (TrimSpace pub) = .ok c1) (h2 : (env.Decode c1).1 = some b1)
    (h3 : env.ReadFile (TrimSpace pri) = .ok c2) (h4 : (env.Decode c2).1 = some b2) :
    LoadKeyFromPEMFile env pub pri f
      = ⟨[.readFile (TrimSpace pub), .pemDecode c1, .readFile (TrimSpace pri), .pemDecode c2,
            .parseKey b1.Bytes b2.Bytes],
          f b1.Bytes b2.Bytes⟩ := by
  simp only [LoadKeyFromPEMFile, h1, h2, h3, h4]

/-- The loader sees of a PEM block only its payload: two worlds with the same
files whose decoders agree on the payload of the first block (whatever the
type label, the headers and the rest of the input) give the same run. -/
theorem LoadKeyFromPEMFile_payload_only (env1 env2 : Env) (pub pri : String)
    (f : Bytes → Bytes → Outcome KeyResult)
    (hread : env1.ReadFile = env2.ReadFile)
    (hdec : ∀ d, (env1.Decode d).1.map Block.Bytes = (env2.Decode d).1.map Block.Bytes) :
    LoadKeyFromPEMFile env1 pub pri f = LoadKeyFromPEMFile env2 pub pri f := by
  cases hr1 : env2.ReadFile (TrimSpace pub) with
  | error e =>
    rw [load_public_unreadable env1 pub pri f e (by rw [hread, hr1]),
      load_public_unreadable env2 pub pri f e hr1]
  | ok c1 =>
    have hr1' : env1.ReadFile (TrimSpace pub) = .ok c1 := by rw [hread, hr1]
    have h1 := hdec c1
    cases hd1 : (env1.Decode c1).1 with
    | none =>
      cases hd2 : (env2.Decode c1).1 with
      | none =>
        rw [load_public_not_pem env1 pub pri f c1 hr1' hd1,
          load_public_not_pem env2 pub pri f c1 hr1 hd2]
      | some b => simp [hd1, hd2] at h1
    | some a =>
      cases hd2 : (env2.Decode c1).1 with
      | none => simp [hd1, hd2] at h1
      | some b =>
        have hab : a.Bytes = b.Bytes := by simpa [hd1, hd2] using h1
        cases hr2 : env2.ReadFile (TrimSpace pri) with
        | error e =>
          rw [load_private_unreadable env1 pub pri f c1 a e hr1' hd1 (by rw [hread, hr2]),
            load_private_unreadable env2 pub pri f c1 b e hr1 hd2 hr2]
        | ok c2 =>
          have hr2' : env1.ReadFile (TrimSpace pri) = .ok c2 := by rw [hread, hr2]
          have h2 := hdec c2
          cases hd3 : (env1.Decode c2).1 with
          | none =>
            cases hd4 : (env2.Decode c2).1 with
            | none =>
              rw [load_private_not_pem env1 pub pri f c1 c2 a hr1' hd1 hr2' hd3,
                load_private_not_pem env2 pub pri f c1 c2 b hr1 hd2 hr2 hd4]
            | some b2 => simp [hd3, hd4] at h2
          | some a2 =>
            cases hd4 : (env2.Decode c2).1 with
            | none => simp [hd3, hd4] at h2
            | some b2 =>
              have hab2 : a2.Bytes = b2.Bytes := by simpa [hd3, hd4] using h2
              rw [load_both_pem env1 pub pri f c1 c2 a a2 hr1' hd1 hr2' hd3,
                load_both_pem env2 pub pri f c1 c2 b b2 hr1 hd2 hr2 hd4, hab, hab2]

/-! ## The claims -/

/-- C1, as stated, fails: on the key with neither half, `Modulus` does
dereference a nil pointer. -/
theorem Modulus_neither_not_explicit_error :
    ¬ (∀ k : key, k.publicKey = none → k.privateKey = none →
        k.Modulus ≠ .panic .nilDereference ∧ ∀ n, k.Modulus ≠ .ret n) := by
  intro h
  exact (h emptyKey rfl rfl).1 rfl

/-- C1, amended: on a key whose public half and private half are both nil,
`Modulus` returns no integer at all (neither zero nor any other): it aborts
with the nil-pointer-dereference panic. -/
theorem Modulus_neither_panics (k : key) (hpub : k.publicKey = none)
    (hpri : k.privateKey = none) :
    k.Modulus = .panic .nilDereference ∧ ∀ n, k.Modulus ≠ .ret n := by
  have h : k.Modulus = .panic .nilDereference := by
    unfold key.Modulus
    rw [hpri, hpub]
  refine ⟨h, fun n hn => ?_⟩
  rw [h] at hn
  cases hn

/-- The amended C1 at the key with no half. -/
theorem Modulus_neither_panics_witness :
    emptyKey.Modulus = .panic .nilDereference ∧ ∀ n, emptyKey.Modulus ≠ .ret n :=
  Modulus_neither_panics emptyKey rfl rfl

/-- C2, as stated, fails: on payloads that the parser accepts as
elliptic-curve keys, none of the four functions returns an error value. -/
theorem parse_nonRSA_no_error_returned :
    sampleX509.ParsePKIXPublicKey [2] = .ok (.other "*ecdsa.PublicKey") ∧
    sampleX509.ParsePKCS8PrivateKey [4] = .ok (.other "*ecdsa.PrivateKey") ∧
    (¬ ∃ r, ParsePKCS8PubKey sampleX509 [2] = .ret r) ∧
    (¬ ∃ r, ParsePKCS8PriKey sampleX509 [4] = .ret r) ∧
    (¬ ∃ r, ParsePKCS8Key sampleX509 [2] [3, 77] = .ret r) ∧
    (¬ ∃ r, ParsePKCS8Key sampleX509 [1, 77] [4] = .ret r) ∧
    (¬ ∃ r, ParsePKCS1Key sampleX509 [2] [5, 77] = .ret r) := by
  refine ⟨rfl, rfl, ?_, ?_, ?_, ?_, ?_⟩ <;>
    · rintro ⟨r, hr⟩
      cases hr

/-- C2, amended: when the PKIX (resp. PKCS#8) parser accepts a payload as a
key of another type than RSA, no function returns a TypeMismatch error.
`ParsePKCS8PubKey` and `ParsePKCS8PriKey` abort with the panic of the failed
type assertion; `ParsePKCS8Key` and `ParsePKCS1Key` abort so too once the
other payload has been accepted by its parser, and return that parser's
error with a nil Key when the private payload is rejected.  In no case is a
Key returned. -/
theorem parse_nonRSA_panics (x : X509) :
    (∀ pub t, x.ParsePKIXPublicKey pub = .ok (.other t) →
      ParsePKCS8PubKey x pub = .panic (.interfaceConversion t "*rsa.PublicKey")) ∧
    (∀ pri t, x.ParsePKCS8PrivateKey pri = .ok (.other t) →
      ParsePKCS8PriKey x pri = .panic (.interfaceConversion t "*rsa.PrivateKey")) ∧
    (∀ pub pri t b, x.ParsePKIXPublicKey pub = .ok (.other t) →
      x.ParsePKCS8PrivateKey pri = .ok b →
      ParsePKCS8Key x pub pri = .panic (.interfaceConversion t "*rsa.PublicKey")) ∧
    (∀ pub pri P t, x.ParsePKIXPublicKey pub = .ok (.rsa P) →
      x.ParsePKCS8PrivateKey pri = .ok (.other t) →
      ParsePKCS8Key x pub pri = .panic (.interfaceConversion t "*rsa.PrivateKey")) ∧
    (∀ pub pri t R, x.ParsePKIXPublicKey pub = .ok (.other t) →
      x.ParsePKCS1PrivateKey pri = .ok R →
      ParsePKCS1Key x pub pri = .panic (.interfaceConversion t "*rsa.PublicKey")) ∧
    (∀ pub pri t e, x.ParsePKIXPublicKey pub = .ok (.other t) →
      x.ParsePKCS8PrivateKey pri = .error e →
      ParsePKCS8Key x pub pri = .ret (none, some e)) ∧
    (∀ pub pri t e, x.ParsePKIXPublicKey pub = .ok (.other t) →
      x.ParsePKCS1PrivateKey pri = .error e →
      ParsePKCS1Key x pub pri = .ret (none, some e)) := by
  refine ⟨?_, ?_, ?_, ?_, ?_, ?_, ?_⟩
  · intro pub t h
    simp [ParsePKCS8PubKey, h, assertRSAPublic, Outcome.bind]
  · intro pri t h
    simp [ParsePKCS8PriKey, h, assertRSAPrivate, Outcome.bind]
  · intro pub pri t b h1 h2
    simp [ParsePKCS8Key, h1, h2, assertRSAPublic, Outcome.bind]
  · intro pub pri P t h1 h2
    simp [ParsePKCS8Key, h1, h2, assertRSAPublic, assertRSAPrivate, Outcome.bind]
  · intro pub pri t R h1 h2
    simp [ParsePKCS1Key, h1, h2, assertRSAPublic, Outcome.bind]
  · intro pub pri t e h1 h2
    simp [ParsePKCS8Key, h1, h2]
  · intro pub pri t e h1 h2
    simp [ParsePKCS1Key, h1, h2]

/-- The amended C2 on an elliptic-curve public payload. -/
theorem parse_nonRSA_panics_witness :
    sampleX509.ParsePKIXPublicKey [2] = .ok (.other "*ecdsa.PublicKey") ∧
    ParsePKCS8PubKey sampleX509 [2]
      = .panic (.interfaceConversion "*ecdsa.PublicKey" "*rsa.PublicKey") :=
  ⟨rfl, (parse_nonRSA_panics sampleX509).1 [2] "*ecdsa.PublicKey" rfl⟩

/-- C3: a payload rejected by its parser makes the function return that
parser's error with a nil Key.  In `ParsePKCS8Key` and `ParsePKCS1Key` the
public payload comes first: its error is returned whatever the private
payload is, and the private error is returned only after the public payload
was accepted.  A returned error never comes with a Key. -/
theorem parse_error_propagation (x : X509) :
    (∀ pub e, x.ParsePKIXPublicKey pub = .error e →
      ParsePKCS8PubKey x pub = .ret (none, some e)) ∧
    (∀ pri e, x.ParsePKCS8PrivateKey pri = .error e →
      ParsePKCS8PriKey x pri = .ret (none, some e)) ∧
    (∀ pub pri e, x.ParsePKIXPublicKey pub = .error e →
      ParsePKCS8Key x pub pri = .ret (none, some e) ∧
      ParsePKCS1Key x pub pri = .ret (none, some e)) ∧
    (∀ pub pri a e, x.ParsePKIXPublicKey pub = .ok a →
      x.ParsePKCS8PrivateKey pri = .error e →
      ParsePKCS8Key x pub pri = .ret (none, some e)) ∧
    (∀ pub pri a e, x.ParsePKIXPublicKey pub = .ok a →
      x.ParsePKCS1PrivateKey pri = .error e →
      ParsePKCS1Key x pub pri = .ret (none, some e)) ∧
    (∀ pub k e, ParsePKCS8PubKey x pub = .ret (k, some e) →
      k = none ∧ x.ParsePKIXPublicKey pub = .error e) ∧
    (∀ pri k e, ParsePKCS8PriKey x pri = .ret (k, some e) →
      k = none ∧ x.ParsePKCS8PrivateKey pri = .error e) ∧
    (∀ pub pri k e, ParsePKCS8Key x pub pri = .ret (k, some e) →
      k = none ∧ (x.ParsePKIXPublicKey pub = .error e ∨
        ((∃ a, x.ParsePKIXPublicKey pub = .ok a) ∧ x.ParsePKCS8PrivateKey pri = .error e))) ∧
    (∀ pub pri k e, ParsePKCS1Key x pub pri = .ret (k, some e) →
      k = none ∧ (x.ParsePKIXPublicKey pub = .error e ∨
        ((∃ a, x.ParsePKIXPublicKey pub = .ok a) ∧ x.ParsePKCS1PrivateKey pri = .error e))) := by
  refine ⟨?_, ?_, ?_, ?_, ?_, ?_, ?_, ?_, ?_⟩
  · intro pub e h
    simp [ParsePKCS8PubKey, h]
  · intro pri e h
    simp [ParsePKCS8PriKey, h]
  · intro pub pri e h
    simp [ParsePKCS8Key, ParsePKCS1Key, h]
  · intro pub pri a e h1 h2
    simp [ParsePKCS8Key, h1, h2]
  · intro pub pri a e h1 h2
    simp [ParsePKCS1Key, h1, h2]
  · intro pub k e h
    unfold ParsePKCS8PubKey at h
    cases hp : x.ParsePKIXPublicKey pub with
    | error err =>
      rw [hp] at h
      simp only [Outcome.ret.injEq, Prod.mk.injEq, Option.some.injEq] at h
      exact ⟨h.1.symm, by rw [h.2]⟩
    | ok a =>
      rw [hp] at h
      cases a <;> simp [assertRSAPublic, Outcome.bind] at h
  · intro pri k e h
    unfold ParsePKCS8PriKey at h
    cases hp : x.ParsePKCS8PrivateKey pri with
    | error err =>
      rw [hp] at h
      simp only [Outcome.ret.injEq, Prod.mk.injEq, Option.some.injEq] at h
      exact ⟨h.1.symm, by rw [h.2]⟩
    | ok a =>
      rw [hp] at h
      cases a <;> simp [assertRSAPrivate, Outcome.bind] at h
  · intro pub pri k e h
    unfold ParsePKCS8Key at h
    cases hp : x.ParsePKIXPublicKey pub with
    | error err =>
      rw [hp] at h
      simp only [Outcome.ret.injEq, Prod.mk.injEq, Option.some.injEq] at h
      exact ⟨h.1.symm, Or.inl (by rw [h.2])⟩
    | ok a =>
      rw [hp] at h
      cases hq : x.ParsePKCS8PrivateKey pri with
      | error err =>
        rw [hq] at h
        simp only [Outcome.ret.injEq, Prod.mk.injEq, Option.some.injEq] at h
        exact ⟨h.1.symm, Or.inr ⟨⟨a, rfl⟩, by rw [h.2]⟩⟩
      | ok b =>
        rw [hq] at h
        cases a <;> cases b <;> simp [assertRSAPublic, assertRSAPrivate, Outcome.bind] at h
  · intro pub pri k e h
    unfold ParsePKCS1Key at h
    cases hp : x.ParsePKIXPublicKey pub with
    | error err =>
      rw [hp] at h
      simp only [Outcome.ret.injEq, Prod.mk.injEq, Option.some.injEq] at h
      exact ⟨h.1.symm, Or.inl (by rw [h.2])⟩
    | ok a =>
      rw [hp] at h
      cases hq : x.ParsePKCS1PrivateKey pri with
      | error err =>
        rw [hq] at h
        simp only [Outcome.ret.injEq, Prod.mk.injEq, Option.some.injEq] at h
        exact ⟨h.1.symm, Or.inr ⟨⟨a, rfl⟩, by rw [h.2]⟩⟩
      | ok b =>
        rw [hq] at h
        cases a <;> simp [assertRSAPublic, Outcome.bind] at h

/-- C3 on a garbage public payload next to a valid PKCS#8 private payload:
the error is the one of the public half. -/
theorem parse_error_propagation_witness :
    sampleX509.ParsePKIXPublicKey [0] = .error (.library "asn1" "structure error: public") ∧
    sampleX509.ParsePKCS8PrivateKey [3, 77]
      = .ok (.rsa { N := some 77, E := 65537, D := 1, Primes := [] }) ∧
    ParsePKCS8Key sampleX509 [0] [3, 77]
      = .ret (none, some (.library "asn1" "structure error: public")) :=
  ⟨rfl, rfl, ((parse_error_propagation sampleX509).2.2.1 [0] [3, 77] _ rfl).1⟩

/-- C4, as stated, fails: a key with a half present need not make `Modulus`
return.  On the key whose public half has a nil modulus pointer it panics. -/
theorem Modulus_not_total_on_present_half :
    ¬ (∀ k : key, (k.publicKey ≠ none ∨ k.privateKey ≠ none) → ∃ n, k.Modulus = .ret n) := by
  intro h
  obtain ⟨n, hn⟩ := h sampleNilModulus (Or.inl (by decide))
  cases hn

/-- C4, amended: `Modulus` reads the private half whenever it is present,
also next to a public half of another modulus, and the public half when the
private half is absent.  When the modulus pointer `N` of the half it reads
is not nil, the result is the byte length of that modulus, the number of
base-256 digits of its absolute value; when it is nil, `Modulus` panics,
even if the other half has a modulus.  With both halves present and moduli
of different byte lengths the result is not the public one. -/
theorem Modulus_prefers_private (k : key)
    (hsome : k.publicKey ≠ none ∨ k.privateKey ≠ none) :
    (∀ r n, k.privateKey = some r → r.N = some n →
      k.Modulus = .ret (Nat.digits 256 n.natAbs).length) ∧
    (∀ p n, k.privateKey = none → k.publicKey = some p → p.N = some n →
      k.Modulus = .ret (Nat.digits 256 n.natAbs).length) ∧
    (∀ r, k.privateKey = some r → r.N = none → k.Modulus = .panic .nilDereference) ∧
    (∀ p, k.privateKey = none → k.publicKey = some p → p.N = none →
      k.Modulus = .panic .nilDereference) ∧
    (∀ p r m n, k.publicKey = some p → k.privateKey = some r → p.N = some m → r.N = some n →
      (Nat.digits 256 m.natAbs).length ≠ (Nat.digits 256 n.natAbs).length →
      k.Modulus ≠ .ret (Nat.digits 256 m.natAbs).length) ∧
    ((∃ n, k.Modulus = .ret n) ↔
      ((∃ r n, k.privateKey = some r ∧ r.N = some n) ∨
        (k.privateKey = none ∧ ∃ p n, k.publicKey = some p ∧ p.N = some n))) := by
  have hpri : ∀ r n, k.privateKey = some r → r.N = some n →
      k.Modulus = .ret (Nat.digits 256 n.natAbs).length := by
    intro r n hr hn
    unfold key.Modulus
    rw [hr]
    simp only [hn, bigBytes, Outcome.bind]
    rw [natBytes_eq_digits _ _ le_rfl, List.length_reverse]
  have hpub : ∀ p n, k.privateKey = none → k.publicKey = some p → p.N = some n →
      k.Modulus = .ret (Nat.digits 256 n.natAbs).length := by
    intro p n hr hp hn
    unfold key.Modulus
    rw [hr, hp]
    simp only [hn, bigBytes, Outcome.bind]
    rw [natBytes_eq_digits _ _ le_rfl, List.length_reverse]
  have hprinil : ∀ r, k.privateKey = some r → r.N = none →
      k.Modulus = .panic .nilDereference := by
    intro r hr hn
    unfold key.Modulus
    rw [hr]
    simp only [hn, bigBytes, Outcome.bind]
  have hpubnil : ∀ p, k.privateKey = none → k.publicKey = some p → p.N = none →
      k.Modulus = .panic .nilDereference := by
    intro p hr hp hn
    unfold key.Modulus
    rw [hr, hp]
    simp only [hn, bigBytes, Outcome.bind]
  refine ⟨hpri, hpub, hprinil, hpubnil, ?_, ?_⟩
  · intro p r m n _ hr _ hn hne h
    rw [hpri r n hr hn] at h
    simp only [Outcome.ret.injEq] at h
    exact hne h.symm
  · constructor
    · rintro ⟨n, hn⟩
      cases hr : k.privateKey with
      | some r =>
        cases hN : r.N with
        | some v => exact Or.inl ⟨r, v, rfl, hN⟩
        | none =>
          rw [hprinil r hr hN] at hn
          cases hn
      | none =>
        cases hp : k.publicKey with
        | some p =>
          cases hN : p.N with
          | some v => exact Or.inr ⟨rfl, p, v, rfl, hN⟩
          | none =>
            rw [hpubnil p hr hp hN] at hn
            cases hn
        | none =>
          rcases hsome with h | h
          · exact absurd hp h
          · exact absurd hr h
    · rintro (⟨r, n, hr, hn⟩ | ⟨hr, p, n, hp, hn⟩)
      · exact ⟨_, hpri r n hr hn⟩
      · exact ⟨_, hpub p n hr hp hn⟩

/-- The amended C4 on a key whose public modulus has three bytes and whose
private modulus has one: the result is 1. -/
theorem Modulus_prefers_private_witness :
    sampleMismatched.publicKey = some { N := some 65537, E := 3 } ∧
    sampleMismatched.Modulus = .ret 1 :=
  ⟨rfl, ((Modulus_prefers_private sampleMismatched (Or.inl (by decide))).1
      _ 255 rfl rfl).trans (by norm_num)⟩

/-- C5: when the modulus that `Modulus` reads (the private one if the private
half is present, else the public one) is a positive integer `N`, the result
is the unique `k ≥ 1` with `256^(k-1) ≤ N < 256^k`, that is
`⌈bitlen N / 8⌉`; it is 256 for a 2048-bit modulus; and for every big-endian
byte string of value `N`, however many zero bytes lead it, it is the length
of that string without its leading zero bytes. -/
theorem Modulus_exact_byte_length (k : key) (N : Int)
    (hsel : (∃ r, k.privateKey = some r ∧ r.N = some N) ∨
      (k.privateKey = none ∧ ∃ p, k.publicKey = some p ∧ p.N = some N))
    (hpos : 0 < N) :
    ∃ len : Nat, k.Modulus = .ret len ∧ 1 ≤ len ∧
      (256 : Int) ^ (len - 1) ≤ N ∧ N < (256 : Int) ^ len ∧
      (∀ j : Nat, 1 ≤ j → (256 : Int) ^ (j - 1) ≤ N → N < (256 : Int) ^ j → j = len) ∧
      len = (Nat.size N.toNat + 7) / 8 ∧
      ((2 : Int) ^ 2047 ≤ N → N < (2 : Int) ^ 2048 → len = 256) ∧
      (∀ bs : Bytes, (∀ b ∈ bs, b < 256) → N = (beValue bs : Int) →
        len = (bs.dropWhile (fun b => b == 0)).length) := by
  obtain ⟨n, rfl⟩ : ∃ n : Nat, N = (n : Int) := ⟨N.toNat, by omega⟩
  have hn : n ≠ 0 := by omega
  have hmod : k.Modulus = .ret (natBytes n n).length := by
    rcases hsel with ⟨r, hr, hN⟩ | ⟨hr, p, hp, hN⟩
    · unfold key.Modulus
      rw [hr]
      simp [bigBytes, hN, Outcome.bind]
    · unfold key.Modulus
      rw [hr, hp]
      simp [bigBytes, hN, Outcome.bind]
  obtain ⟨h1, hlo, hhi, huniq, hsize⟩ := natBytes_length_spec n hn
  refine ⟨(natBytes n n).length, hmod, h1, by exact_mod_cast hlo, by exact_mod_cast hhi,
    ?_, by simpa using hsize, ?_, ?_⟩
  · intro j hj hjlo hjhi
    exact huniq j hj (by exact_mod_cast hjlo) (by exact_mod_cast hjhi)
  · intro hlo2 hhi2
    have a : 2 ^ 2047 ≤ n := by exact_mod_cast hlo2
    have b : n < 2 ^ 2048 := by exact_mod_cast hhi2
    have h3 : 2047 < Nat.size n := Nat.lt_size.mpr a
    have h4 : Nat.size n ≤ 2048 := Nat.size_le.mpr b
    omega
  · intro bs hbs hval
    have : n = beValue bs := by exact_mod_cast hval
    rw [this, natBytes_beValue bs hbs]

/-- C5 on a public-only key of modulus 65537 = 0x010001. -/
theorem Modulus_exact_byte_length_witness :
    (0 : Int) < 65537 ∧ samplePublicOnly.Modulus = .ret 3 := by
  refine ⟨by decide, ?_⟩
  obtain ⟨len, hm, _, _, _, _, _, _, hder⟩ :=
    Modulus_exact_byte_length samplePublicOnly 65537 (Or.inr ⟨rfl, _, rfl, rfl⟩) (by decide)
  rw [hm, hder [0, 0, 1, 0, 1] (by decide) (by decide)]
  rfl

/-- C10: when the public payload decodes to an RSA public key `P` and the
private payload to an RSA private key `R`, `ParsePKCS8Key` (PKCS#8 private
payload) and `ParsePKCS1Key` (PKCS#1 private payload) succeed with a Key
whose `PublicKey()` is `P` and whose `PrivateKey()` is `R`, whatever `P` and
`R` are; `ParsePKCS8PubKey` and `ParsePKCS8PriKey` succeed with a Key whose
other half is nil. -/
theorem parse_RSA_populates (x : X509) :
    (∀ pub pri P R, x.ParsePKIXPublicKey pub = .ok (.rsa P) →
      x.ParsePKCS8PrivateKey pri = .ok (.rsa R) →
      ∃ k, ParsePKCS8Key x pub pri = .ret (some k, none) ∧
        k.PublicKey = some P ∧ k.PrivateKey = some R) ∧
    (∀ pub pri P R, x.ParsePKIXPublicKey pub = .ok (.rsa P) →
      x.ParsePKCS1PrivateKey pri = .ok R →
      ∃ k, ParsePKCS1Key x pub pri = .ret (some k, none) ∧
        k.PublicKey = some P ∧ k.PrivateKey = some R) ∧
    (∀ pub P, x.ParsePKIXPublicKey pub = .ok (.rsa P) →
      ∃ k, ParsePKCS8PubKey x pub = .ret (some k, none) ∧
        k.PublicKey = some P ∧ k.PrivateKey = none) ∧
    (∀ pri R, x.ParsePKCS8PrivateKey pri = .ok (.rsa R) →
      ∃ k, ParsePKCS8PriKey x pri = .ret (some k, none) ∧
        k.PublicKey = none ∧ k.PrivateKey = some R) := by
  refine ⟨?_, ?_, ?_, ?_⟩
  · intro pub pri P R h1 h2
    exact ⟨{ publicKey := some P, privateKey := some R },
      by simp [ParsePKCS8Key, h1, h2, assertRSAPublic, assertRSAPrivate, Outcome.bind], rfl, rfl⟩
  · intro pub pri P R h1 h2
    exact ⟨{ publicKey := some P, privateKey := some R },
      by simp [ParsePKCS1Key, h1, h2, assertRSAPublic, Outcome.bind], rfl, rfl⟩
  · intro pub P h1
    exact ⟨{ publicKey := some P, privateKey := none },
      by simp [ParsePKCS8PubKey, h1, assertRSAPublic, Outcome.bind], rfl, rfl⟩
  · intro pri R h1
    exact ⟨{ publicKey := none, privateKey := some R },
      by simp [ParsePKCS8PriKey, h1, assertRSAPrivate, Outcome.bind], rfl, rfl⟩

/-- C10 on a public key of modulus 77 and a PKCS#1 private key of modulus 91:
the pair is accepted although the moduli differ. -/
theorem parse_RSA_populates_witness :
    sampleX509.ParsePKIXPublicKey [1, 77] = .ok (.rsa { N := some 77, E := 65537 }) ∧
    sampleX509.ParsePKCS1PrivateKey [5, 91]
      = .ok { N := some 91, E := 65537, D := 1, Primes := [] } ∧
    ∃ k, ParsePKCS1Key sampleX509 [1, 77] [5, 91] = .ret (some k, none) ∧
      k.PublicKey = some { N := some 77, E := 65537 } ∧
      k.PrivateKey = some { N := some 91, E := 65537, D := 1, Primes := [] } :=
  ⟨rfl, rfl, (parse_RSA_populates sampleX509).2.1 [1, 77] [5, 91] _ _ rfl rfl⟩

/-- C6: when reading the file at the trimmed public path fails with `e`, the
loader returns a nil Key and `e` itself, and the read of the public file is
the only call it makes (no PEM decoding, no read of the private file, no
strategy).  When reading the private file fails with `e` after the public
file was read and gave a PEM block, the loader returns a nil Key and `e`,
having neither decoded a private file nor called the strategy. -/
theorem load_read_failure (env : Env) (pub pri : String)
    (f : Bytes → Bytes → Outcome KeyResult) :
    (∀ e, env.ReadFile (TrimSpace pub) = .error e →
      LoadKeyFromPEMFile env pub pri f
        = ⟨[.readFile (TrimSpace pub)], .ret (none, some e)⟩) ∧
    (∀ c1 b1 e, env.ReadFile (TrimSpace pub) = .ok c1 → (env.Decode c1).1 = some b1 →
      env.ReadFile (TrimSpace pri) = .error e →
      LoadKeyFromPEMFile env pub pri f
        = ⟨[.readFile (TrimSpace pub), .pemDecode c1, .readFile (TrimSpace pri)],
            .ret (none, some e)⟩) :=
  ⟨fun e h1 => load_public_unreadable env pub pri f e h1,
   fun c1 b1 e h1 h2 h3 => load_private_unreadable env pub pri f c1 b1 e h1 h2 h3⟩

/-- C6 on a public path that names no file, with a strategy that would
panic if it were called. -/
theorem load_read_failure_witness :
    sampleEnv.ReadFile (TrimSpace " nope.pem ") = .error (.library "os" "no such file or directory") ∧
    LoadKeyFromPEMFile sampleEnv " nope.pem " "pri.pem" (fun _ _ => .panic .nilDereference)
      = ⟨[.readFile "nope.pem"], .ret (none, some (.library "os" "no such file or directory"))⟩ :=
  ⟨rfl,
   (load_read_failure sampleEnv " nope.pem " "pri.pem" (fun _ _ => .panic .nilDereference)).1
      _ rfl⟩

/-- C7: when the public file is readable and holds no PEM block, the loader
returns a nil Key and an error of message "publicKey is not pem format",
whatever the private path is; when the public file gives a block and the
private file is readable and holds no PEM block, the message is "privateKey
is not pem format".  In both cases the strategy is not called.  The type
label of a block is never looked at: worlds that differ only in what the
decoder puts beside the payload give the same run. -/
theorem load_not_pem (env : Env) (pub pri : String)
    (f : Bytes → Bytes → Outcome KeyResult) :
    (∀ c1, env.ReadFile (TrimSpace pub) = .ok c1 → (env.Decode c1).1 = none →
      ∃ err, err.message = "publicKey is not pem format" ∧
        LoadKeyFromPEMFile env pub pri f
          = ⟨[.readFile (TrimSpace pub), .pemDecode c1], .ret (none, some err)⟩) ∧
    (∀ c1 b1 c2, env.ReadFile (TrimSpace pub) = .ok c1 → (env.Decode c1).1 = some b1 →
      env.ReadFile (TrimSpace pri) = .ok c2 → (env.Decode c2).1 = none →
      ∃ err, err.message = "privateKey is not pem format" ∧
        LoadKeyFromPEMFile env pub pri f
          = ⟨[.readFile (TrimSpace pub), .pemDecode c1, .readFile (TrimSpace pri),
                .pemDecode c2],
              .ret (none, some err)⟩) ∧
    (∀ env2 : Env, env2.ReadFile = env.ReadFile →
      (∀ d, (env2.Decode d).1.map Block.Bytes = (env.Decode d).1.map Block.Bytes) →
      LoadKeyFromPEMFile env2 pub pri f = LoadKeyFromPEMFile env pub pri f) :=
  ⟨fun c1 h1 h2 => ⟨errorsNew "publicKey is not pem format", rfl,
      load_public_not_pem env pub pri f c1 h1 h2⟩,
   fun c1 b1 c2 h1 h2 h3 h4 => ⟨errorsNew "privateKey is not pem format", rfl,
      load_private_not_pem env pub pri f c1 c2 b1 h1 h2 h3 h4⟩,
   fun env2 hread hdec => LoadKeyFromPEMFile_payload_only env2 env pub pri f hread hdec⟩

/-- C7 on a public file without PEM armor and a private path that names no
file. -/
theorem load_not_pem_witness :
    sampleEnv.ReadFile (TrimSpace "plain.txt") = .ok [104, 105] ∧
    (sampleEnv.Decode [104, 105]).1 = none ∧
    ∃ err, err.message = "publicKey is not pem format" ∧
      LoadKeyFromPEMFile sampleEnv "plain.txt" "nope.pem" (fun _ _ => .panic .nilDereference)
        = ⟨[.readFile (TrimSpace "plain.txt"), .pemDecode [104, 105]],
            .ret (none, some err)⟩ :=
  ⟨rfl, rfl,
   (load_not_pem sampleEnv "plain.txt" "nope.pem" (fun _ _ => .panic .nilDereference)).1
      [104, 105] rfl rfl⟩

/-- C8: when both files are readable and each gives a first PEM block, the
result of the loader is the result of the strategy on the payloads of these
two blocks, unchanged, and the strategy is called once, last, on exactly
these payloads; what the decoder leaves as the rest of the input, and
whatever else it puts in the block, has no part in it. -/
theorem load_delegates (env : Env) (pub pri : String)
    (f : Bytes → Bytes → Outcome KeyResult) (c1 c2 rest1 rest2 : Bytes) (b1 b2 : Block)
    (h1 : env.ReadFile (TrimSpace pub) = .ok c1) (h2 : env.Decode c1 = (some b1, rest1))
    (h3 : env.ReadFile (TrimSpace pri) = .ok c2) (h4 : env.Decode c2 = (some b2, rest2)) :
    (LoadKeyFromPEMFile env pub pri f).result = f b1.Bytes b2.Bytes ∧
    (LoadKeyFromPEMFile env pub pri f).calls
      = [.readFile (TrimSpace pub), .pemDecode c1, .readFile (TrimSpace pri), .pemDecode c2,
          .parseKey b1.Bytes b2.Bytes] ∧
    (∀ env2 : Env, env2.ReadFile = env.ReadFile →
      (∀ d, (env2.Decode d).1.map Block.Bytes = (env.Decode d).1.map Block.Bytes) →
      LoadKeyFromPEMFile env2 pub pri f = LoadKeyFromPEMFile env pub pri f) := by
  have h := load_both_pem env pub pri f c1 c2 b1 b2 h1 (by rw [h2]) h3 (by rw [h4])
  refine ⟨by rw [h], by rw [h], ?_⟩
  intro env2 hread hdec
  exact LoadKeyFromPEMFile_payload_only env2 env pub pri f hread hdec

/-- C8 on `pub.pem`, which holds two blocks, and `pri.pem`, with the PKCS#8
strategy: the strategy gets the payload of the first block of each file. -/
theorem load_delegates_witness :
    sampleEnv.Decode [45, 2, 1, 77, 45, 1, 9]
      = (some { Type_ := "KEY", Headers := [], Bytes := [1, 77] }, [45, 1, 9]) ∧
    (LoadKeyFromPEMFile sampleEnv "pub.pem" "pri.pem" (ParsePKCS8Key sampleX509)).result
      = ParsePKCS8Key sampleX509 [1, 77] [3, 77] :=
  ⟨rfl,
   (load_delegates sampleEnv "pub.pem" "pri.pem" (ParsePKCS8Key sampleX509)
      [45, 2, 1, 77, 45, 1, 9] [45, 2, 3, 77] [45, 1, 9] []
      { Type_ := "KEY", Headers := [], Bytes := [1, 77] }
      { Type_ := "KEY", Headers := [], Bytes := [3, 77] }
      rfl rfl rfl rfl).1⟩

/-- C9: the loader gives the same run on the paths `p`, `q` and on the
trimmed paths; whitespace put around either path changes nothing. -/
theorem load_trims_paths (env : Env) (p q : String)
    (f : Bytes → Bytes → Outcome KeyResult) :
    LoadKeyFromPEMFile env p q f = LoadKeyFromPEMFile env (TrimSpace p) (TrimSpace q) f ∧
    (∀ ws1 ws2 ws3 ws4 : String,
      (∀ c ∈ ws1.data, isSpace c = true) → (∀ c ∈ ws2.data, isSpace c = true) →
      (∀ c ∈ ws3.data, isSpace c = true) → (∀ c ∈ ws4.data, isSpace c = true) →
      LoadKeyFromPEMFile env (ws1 ++ p ++ ws2) (ws3 ++ q ++ ws4) f
        = LoadKeyFromPEMFile env p q f) := by
  refine ⟨?_, ?_⟩
  · unfold LoadKeyFromPEMFile
    simp only [TrimSpace_idempotent]
  · intro ws1 ws2 ws3 ws4 h1 h2 h3 h4
    unfold LoadKeyFromPEMFile
    simp only [TrimSpace_surround ws1 p ws2 h1 h2, TrimSpace_surround ws3 q ws4 h3 h4]

/-- C9 on paths wrapped in blanks, a tab and a line feed. -/
theorem load_trims_paths_witness :
    LoadKeyFromPEMFile sampleEnv ("  " ++ "pub.pem" ++ "\n") ("\t" ++ "pri.pem" ++ " ")
        (ParsePKCS8Key sampleX509)
      = LoadKeyFromPEMFile sampleEnv "pub.pem" "pri.pem" (ParsePKCS8Key sampleX509) :=
  (load_trims_paths sampleEnv "pub.pem" "pri.pem" (ParsePKCS8Key sampleX509)).2
    "  " "\n" "\t" " " (by decide) (by decide) (by decide) (by decide)

end ZhubinRsa
